/-
Verification of the core rendering, picking and layout-lifecycle logic of
`src/mycelia.cpp` (the Mycelia immersive 3d network visualization tool).

Scalars (`Vrui::Scalar`, `float`) are embedded as rationals `ℚ`; node
indices are naturals, edge lists are insertion-ordered `List`s, and the
fixed 1000x1000 `drawn` table of `Mycelia::drawEdges` is modelled as a
boolean function on pairs of naturals together with an explicit record of
every index pair at which the real array would be accessed.
-/
import Mathlib

namespace Mycelia

/-! ### Geometry primitives (`Vrui::Vector`, `Vrui::Point`) -/

/-- A 3d vector / point with rational coordinates, standing for
`Vrui::Vector` / `Vrui::Point` (float coordinates in the source). -/
structure Vec3 where
  x : ℚ
  y : ℚ
  z : ℚ
deriving DecidableEq, Repr

/-- Componentwise difference, `target - source` in the source. -/
def Vec3.sub (a b : Vec3) : Vec3 := ⟨a.x - b.x, a.y - b.y, a.z - b.z⟩

/-- Dot product, the `sp * ray.getDirection()` expression of
`Mycelia::selectNode(const Vrui::Ray&)`. -/
def Vec3.dot (a b : Vec3) : ℚ := a.x * b.x + a.y * b.y + a.z * b.z

/-- Cross product, `Geometry::cross`. -/
def Vec3.cross (a b : Vec3) : Vec3 :=
  ⟨a.y * b.z - a.z * b.y, a.z * b.x - a.x * b.z, a.x * b.y - a.y * b.x⟩

/-- Squared euclidean norm, `Geometry::sqr`. -/
def Vec3.sqrNorm (a : Vec3) : ℚ := a.x * a.x + a.y * a.y + a.z * a.z

/-- Squared distance between two points, `Geometry::sqrDist`. -/
def sqrDist (a b : Vec3) : ℚ := (a.sub b).sqrNorm

/-! ### Edges and the edge-drawing pass (`Mycelia::drawEdges`) -/

/-- An edge of the graph copy `gCopy`: ordered `(source, target)` node
indices, a material id and a weight (`Edge` in `graph.hpp`, as used by
`Mycelia::drawEdges` / `Mycelia::drawEdge`). -/
structure Edge where
  source : ℕ
  target : ℕ
  material : ℕ
  weight : ℚ
deriving DecidableEq, Repr

/-- One straight edge primitive emitted by the non-bundled branch of
`Mycelia::drawEdges`: the call
`drawEdge(e, dataItem)` records the edge's endpoints, its material id and
the width `edgeThickness * e.weight`. -/
structure EdgePrim where
  source : ℕ
  target : ℕ
  material : ℕ
  width : ℚ
deriving DecidableEq, Repr

/-- The primitive emitted for edge `e`, cf. `Mycelia::drawEdge(const Edge&,
const MyceliaDataItem*)` which forwards material and
`edgeThickness * edge.weight`. -/
def mkPrim (edgeThickness : ℚ) (e : Edge) : EdgePrim :=
  ⟨e.source, e.target, e.material, edgeThickness * e.weight⟩

/-- Setting one cell of the `drawn` dedup table:
`drawn[e.source][e.target] = true`. -/
def drawnUpd (drawn : ℕ → ℕ → Bool) (s t : ℕ) : ℕ → ℕ → Bool :=
  fun a b => if a = s ∧ b = t then true else drawn a b

/-- The loop of `Mycelia::drawEdges` with `bundleButton` off: iterate over
the edges in order; an edge whose source fails the selected-component
filter is skipped; an edge whose `(source, target)` cell of the `drawn`
table is already set is skipped; otherwise the edge is drawn and its cell
is set. -/
def drawEdgesLoop (edgeThickness : ℚ) (filter : ℕ → Bool) :
    List Edge → (ℕ → ℕ → Bool) → List EdgePrim
  | [], _ => []
  | e :: rest, drawn =>
    if filter e.source = false ∨ drawn e.source e.target = true then
      drawEdgesLoop edgeThickness filter rest drawn
    else
      mkPrim edgeThickness e ::
        drawEdgesLoop edgeThickness filter rest (drawnUpd drawn e.source e.target)

/-- Function `Mycelia::drawEdges` (non-bundled path): the `drawn` table starts all
`false` (`bool drawn[1000][1000] = {{false}}`). -/
def drawEdges (edgeThickness : ℚ) (filter : ℕ → Bool) (edges : List Edge) : List EdgePrim :=
  drawEdgesLoop edgeThickness filter edges (fun _ _ => false)

/-- Whether an edge matches the ordered endpoint pair `(s, t)` and passes
the component filter — the condition under which `drawEdges` can emit a
primitive with those endpoints. -/
def edgeHits (filter : ℕ → Bool) (s t : ℕ) (e : Edge) : Bool :=
  filter e.source && decide (e.source = s) && decide (e.target = t)

/-- Every read (and write) of the `drawn` table in `Mycelia::drawEdges`
happens at `[e.source][e.target]` for an edge `e` whose source passes the
component filter; the `||` in
`if(!isSelectedComponent(e.source) || drawn[e.source][e.target])`
short-circuits, so edges failing the filter never touch the table. -/
def drawnTableAccesses (filter : ℕ → Bool) (edges : List Edge) : List (ℕ × ℕ) :=
  (edges.filter (fun e => filter e.source)).map (fun e => (e.source, e.target))

/-- The `drawn` table is declared `bool drawn[1000][1000]`, so an access at
`(r, c)` is in bounds exactly when both indices are below 1000. -/
def accessInBounds (p : ℕ × ℕ) : Prop := p.1 < 1000 ∧ p.2 < 1000

instance (p : ℕ × ℕ) : Decidable (accessInBounds p) := by
  unfold accessInBounds; infer_instance

/-! ### Node picking (`Mycelia::selectNode`) -/

/-- Modelled from the spec: both picking modes "return a sentinel 'no
selection' value when nothing qualifies"; the constant `SELECTION_NONE`
itself is declared in `mycelia.hpp`, which is not part of the sources.
Node indices are naturals, so `-1` is distinct from every node. -/
def SELECTION_NONE : ℤ := -1

/-- The loop of `Mycelia::selectNode(const Vrui::Point&)`: for each node
compare the squared distance from the click position against the current
minimum (initially `Math::sqr(nodeRadius)`), keeping the closer node. -/
def selectPointLoop (pos : ℕ → Vec3) (click : Vec3) :
    List ℕ → ℤ → ℚ → ℤ
  | [], result, _ => result
  | n :: rest, result, minDist2 =>
    if sqrDist click (pos n) < minDist2 then
      selectPointLoop pos click rest (n : ℤ) (sqrDist click (pos n))
    else
      selectPointLoop pos click rest result minDist2

/-- Function `Mycelia::selectNode(const Vrui::Point&)`: `result = SELECTION_NONE`,
`minDist2 = Math::sqr(nodeRadius)`, then the loop over `g->getNodes()`. -/
def selectNodePoint (pos : ℕ → Vec3) (click : Vec3) (nodeRadius : ℚ)
    (nodes : List ℕ) : ℤ :=
  selectPointLoop pos click nodes SELECTION_NONE (nodeRadius * nodeRadius)

/-- The value `numeric_limits<float>::max() = (2^24 - 1) * 2^104 = 2^128 - 2^104`,
the initial value of `lambdaMin` in
`Mycelia::selectNode(const Vrui::Ray&)`, written as an explicit numeral
so that concrete runs of the selection loop evaluate. -/
def fltMax : ℚ := 340282346638528859811704183484516925440

/-- The forward projection `x = sp * ray.getDirection()` of node `n` onto
the ray. -/
def rayProj (pos : ℕ → Vec3) (origin dir : Vec3) (n : ℕ) : ℚ :=
  ((pos n).sub origin).dot dir

/-- The squared perpendicular offset
`y2 = Geometry::sqr(Geometry::cross(sp, ray.getDirection()))`. -/
def rayPerp2 (pos : ℕ → Vec3) (origin dir : Vec3) (n : ℕ) : ℚ :=
  (((pos n).sub origin).cross dir).sqrNorm

/-- Result of the ray-selection loop, instrumented with the running
`lambdaMin` and a flag recording whether the expression
`y2 / Math::sqr(x)` was ever evaluated with `x = 0` (a division by zero
in the C++ source; the rational model gives such a division the junk
value `0`). -/
structure RayLoopState where
  result : ℤ
  lambdaMin : ℚ
  divByZero : Bool
deriving DecidableEq, Repr

/-- The loop of `Mycelia::selectNode(const Vrui::Ray&)`: a node is
examined when `x >= 0 && x < lambdaMin`; it becomes the current result
when additionally `y2 / Math::sqr(x) <= coneAngle2`. -/
def selectRayLoop (pos : ℕ → Vec3) (origin dir : Vec3) (coneAngle2 : ℚ) :
    List ℕ → RayLoopState → RayLoopState
  | [], st => st
  | n :: rest, st =>
    let x := rayProj pos origin dir n
    if 0 ≤ x ∧ x < st.lambdaMin then
      let st' : RayLoopState :=
        ⟨st.result, st.lambdaMin, st.divByZero || decide (x = 0)⟩
      if rayPerp2 pos origin dir n / (x * x) ≤ coneAngle2 then
        selectRayLoop pos origin dir coneAngle2 rest ⟨(n : ℤ), x, st'.divByZero⟩
      else
        selectRayLoop pos origin dir coneAngle2 rest st'
    else
      selectRayLoop pos origin dir coneAngle2 rest st

/-- Function `Mycelia::selectNode(const Vrui::Ray&)`: `result = SELECTION_NONE`,
`coneAngle2 = Math::sqr(coneAngle)`,
`lambdaMin = numeric_limits<float>::max()`, then the loop over
`g->getNodes()`; returns the selected node index (or the sentinel). -/
def selectNodeRay (pos : ℕ → Vec3) (origin dir : Vec3) (coneAngle : ℚ)
    (nodes : List ℕ) : ℤ :=
  (selectRayLoop pos origin dir (coneAngle * coneAngle) nodes
    ⟨SELECTION_NONE, fltMax, false⟩).result

/-- Whether `Mycelia::selectNode(const Vrui::Ray&)` ever divides by zero
while scanning `nodes`. -/
def selectNodeRayDividesByZero (pos : ℕ → Vec3) (origin dir : Vec3)
    (coneAngle : ℚ) (nodes : List ℕ) : Bool :=
  (selectRayLoop pos origin dir (coneAngle * coneAngle) nodes
    ⟨SELECTION_NONE, fltMax, false⟩).divByZero

/-- The candidate predicate of the ray mode, with the division read in the
rational model: `x ≥ 0` and `y² / x² ≤ coneAngle²`. -/
def rayCandidate (pos : ℕ → Vec3) (origin dir : Vec3) (coneAngle2 : ℚ)
    (n : ℕ) : Prop :=
  0 ≤ rayProj pos origin dir n ∧
    rayPerp2 pos origin dir n / (rayProj pos origin dir n * rayProj pos origin dir n)
      ≤ coneAngle2

instance (pos : ℕ → Vec3) (origin dir : Vec3) (coneAngle2 : ℚ) (n : ℕ) :
    Decidable (rayCandidate pos origin dir coneAngle2 n) := by
  unfold rayCandidate; infer_instance

/-! ### Edge geometry (`Mycelia::drawEdge`) -/

/-- The arrow bookkeeping of `Mycelia::drawEdge(source, target, material,
thickness, drawArrow, isBidirectional, dataItem)`: returns the pair
`(sourceOffset, targetOffset)`, where the cylinder is translated by
`sourceOffset` along the edge and drawn with height `targetOffset`
(`gluCylinder(..., targetOffset, ...)`). -/
def edgeOffsets (length edgeOffset : ℚ) (drawArrow isBidirectional : Bool) : ℚ × ℚ :=
  let sourceOffset : ℚ := 0
  let targetOffset : ℚ := if drawArrow then length - edgeOffset else length
  if isBidirectional && drawArrow then
    (edgeOffset, length - 2 * edgeOffset)
  else
    (sourceOffset, targetOffset)

/-! ### Display-list cache (`Mycelia::display` / `Mycelia::buildGraphList`) -/

/-- The per-frame graph copy `gCopy` as read by the render path: node
indices, node types (`getNodeType`), the texture-node mode
(`getTextureNodeMode`), the edge sequence and the version counter
(`getVersion`). -/
structure GraphCopy where
  nodes : List ℕ
  nodeType : ℕ → String
  textureNodeMode : String
  edges : List Edge
  version : ℕ

/-- The cached geometry of one rendering context (`MyceliaDataItem`): the
version the display list was compiled from (`graphListVersion`) and the
compiled content (`graphList`), modelled as the drawn node indices plus
the emitted edge primitives. -/
structure DataItem where
  graphListVersion : ℕ
  graphList : List ℕ × List EdgePrim
deriving DecidableEq, Repr

/-- Function `Mycelia::buildGraphList`: tag the cache with `gCopy->getVersion()`
and compile the whole graph into the display list: with texture-node mode
`"align"`, `drawNodes(dataItem, "image")` skips camera-aligned image nodes,
which are redrawn every frame outside the list; otherwise all
filter-passing nodes are compiled; `drawEdges` emits the edge
primitives. -/
def buildGraphList (edgeThickness : ℚ) (filter : ℕ → Bool) (g : GraphCopy) : DataItem :=
  ⟨g.version,
   ((if g.textureNodeMode = "align" then
       (g.nodes.filter filter).filter (fun n => g.nodeType n ≠ "image")
     else
       g.nodes.filter filter),
    drawEdges edgeThickness filter g.edges)⟩

/-- The cache check of `Mycelia::display`:
`if(dataItem->graphListVersion != gCopy->getVersion())
buildGraphList(dataItem);` — the resulting cache state. -/
def displayCache (edgeThickness : ℚ) (filter : ℕ → Bool) (g : GraphCopy)
    (d : DataItem) : DataItem :=
  if d.graphListVersion ≠ g.version then buildGraphList edgeThickness filter g else d

/-! ### Selection state (`Mycelia::setSelectedNode`) -/

/-- The application state touched by `Mycelia::setSelectedNode`: the
graph's version counter, the two selection slots and the diagnostic
output stream (`cout`). The node-attribute window, the shortest-path
recomputation and the RPC notification performed on the valid branch are
side effects outside this state. -/
structure AppState where
  graphVersion : ℕ
  selectedNode : ℤ
  previousNode : ℤ
  log : List String
deriving DecidableEq, Repr

/-- Function `Mycelia::setSelectedNode(int node)`: an invalid index prints
`"invalid node selected: ..."` and returns; a valid one shifts
`selectedNode` into `previousNode`, stores the new node and calls
`g->update()`. The validity test `g->isValidNode` and `g->update` live in
`graph.hpp` (outside the sources); the validity predicate is therefore a
parameter, and `update` is modelled from the spec: "`version` increases by
exactly 1 on any structural or positional mutation visible to
rendering". -/
def setSelectedNode (isValidNode : ℤ → Bool) (s : AppState) (node : ℤ) : AppState :=
  if isValidNode node = false then
    { s with log := s.log ++ ["invalid node selected"] }
  else
    { s with previousNode := s.selectedNode,
             selectedNode := node,
             graphVersion := s.graphVersion + 1 }

/-! ### Path and tree overlays (`Mycelia::drawShortestPath`,
`Mycelia::drawSpanningTree`) -/

/-- Indexing `predecessorVector[i]`: C++ `std::vector` indexing (no bounds check in
the source; out-of-range reads are excluded by hypothesis where it
matters). -/
def predStep (pred : List ℕ) (j : ℕ) : ℕ := pred.getD j 0

/-- The loop of `Mycelia::drawShortestPath`, with explicit fuel counting
loop iterations:
`for(int i = selectedNode; i != previousNode; i = predecessorVector[i])
\x7b if(i == predecessorVector[i]) break; ... \x7d`.
Returns the list of nodes drawn, or `none` when the loop does not
terminate within `fuel` iterations. -/
def shortestPathTrace (pred : List ℕ) (previous : ℕ) : ℕ → ℕ → Option (List ℕ)
  | i, 0 =>
    if i = previous then some []
    else if predStep pred i = i then some []
    else none
  | i, fuel + 1 =>
    if i = previous then some []
    else if predStep pred i = i then some []
    else (shortestPathTrace pred previous (predStep pred i) fuel).map (i :: ·)

/-- The loop of `Mycelia::drawSpanningTree`: for every index of the
predecessor vector, draw the node and the edge to its predecessor. -/
def drawSpanningTree (pred : List ℕ) : List (ℕ × ℕ) :=
  (List.range pred.length).map (fun i => (i, predStep pred i))

/-! ### Layout lifecycle (`Mycelia::setLayoutType`, `Mycelia::stopLayout`,
`Mycelia::bundleCallback`, `Mycelia::resetLayout`,
`Mycelia::resetNavigationCallback`, `Mycelia::generatorCallback`) -/

/-- Which layout object the member `layout` points at:
`staticLayout` (FruchtermanReingoldLayout) or `dynamicLayout`
(ArfLayout). -/
inductive LayoutKind where
  | staticL
  | dynamicL
deriving DecidableEq, Repr

/-- The lifecycle state visible to the layout-switching operations: the
Running flag of each of the three workers (`staticLayout`,
`dynamicLayout`, `edgeBundler`), the `layout` pointer, the `skipLayout`
flag, the node count of `g`, and the state of the `staticButton` radio
toggle read by `resetLayout`. -/
structure LayoutState where
  staticRunning : Bool
  dynamicRunning : Bool
  bundlerRunning : Bool
  current : LayoutKind
  skipLayout : Bool
  nodeCount : ℕ
  staticToggle : Bool
deriving DecidableEq, Repr

/-- Function `Mycelia::stopLayout`: `edgeBundler->stop();
staticLayout->stop(); dynamicLayout->stop();`. -/
def stopLayout (s : LayoutState) : LayoutState :=
  { s with staticRunning := false, dynamicRunning := false, bundlerRunning := false }

/-- Function `Mycelia::startLayout`: `layout->start()` — starts the layout
the `layout` pointer designates; `start()` is idempotent (spec §4.2), so
the Running flag is simply set. -/
def startLayout (s : LayoutState) : LayoutState :=
  match s.current with
  | .staticL => { s with staticRunning := true }
  | .dynamicL => { s with dynamicRunning := true }

/-- Function `Mycelia::resumeLayout`: start again only when the current
layout is dynamic (`layout->isDynamic()`) and `skipLayout` is unset. -/
def resumeLayout (s : LayoutState) : LayoutState :=
  if s.current = .dynamicL ∧ s.skipLayout = false then startLayout s else s

/-- Whether `layout->isStopped()` holds for the layout the `layout`
pointer designates. -/
def layoutIsStopped (s : LayoutState) : Bool :=
  match s.current with
  | .staticL => !s.staticRunning
  | .dynamicL => !s.dynamicRunning

/-- Function `Mycelia::setLayoutType`: for `LAYOUT_DYNAMIC`, stop the edge
bundler, stop the previous layout when actually switching, point `layout`
at `dynamicLayout`; for `LAYOUT_STATIC`, stop the previous layout when
switching and point `layout` at `staticLayout`. -/
def setLayoutType (s : LayoutState) (t : LayoutKind) : LayoutState :=
  match t with
  | .dynamicL =>
    let s1 := { s with bundlerRunning := false }
    let s2 := if s1.current ≠ .dynamicL then stopLayout s1 else s1
    { s2 with current := .dynamicL }
  | .staticL =>
    let s2 := if s.current ≠ .staticL then stopLayout s else s
    { s2 with current := .staticL }

/-- Function `Mycelia::bundleCallback` with the toggle set: return if the
graph is empty, else `stopLayout(); edgeBundler->start();`. -/
def bundleOn (s : LayoutState) : LayoutState :=
  if s.nodeCount = 0 then s else { stopLayout s with bundlerRunning := true }

/-- Function `Mycelia::bundleCallback` with the toggle unset: return if
the graph is empty, else `edgeBundler->stop(); g->update();
resumeLayout();`. -/
def bundleOff (s : LayoutState) : LayoutState :=
  if s.nodeCount = 0 then s else resumeLayout { s with bundlerRunning := false }

/-- Function `Mycelia::resetLayout`: `stopLayout()`, re-select the layout
type from the `staticButton` toggle, abort when `skipLayout` is set or the
graph is empty, otherwise (after randomizing positions) `startLayout()`.
The optional recentering (`watch`) is `resetNavigationCallback`, modelled
as its own operation. -/
def resetLayout (s : LayoutState) : LayoutState :=
  let s1 := stopLayout s
  let s2 := setLayoutType s1 (if s.staticToggle then .staticL else .dynamicL)
  if s.skipLayout = true ∨ s.nodeCount = 0 then s2 else startLayout s2

/-- Function `Mycelia::resetNavigationCallback`: remember whether the
current layout was running, `stopLayout()`, recenter, and
`resumeLayout()` only if it was. -/
def resetNavigation (s : LayoutState) : LayoutState :=
  let wasRunning := layoutIsStopped s = false
  let s1 := stopLayout s
  if wasRunning then resumeLayout s1 else s1

/-- Function `Mycelia::generatorCallback`: `g->clear()`,
`setLayoutType(LAYOUT_DYNAMIC)`, generate a fresh graph (the new node
count is arbitrary), `resumeLayout()`. -/
def generatorOp (s : LayoutState) (newCount : ℕ) : LayoutState :=
  resumeLayout { setLayoutType s .dynamicL with nodeCount := newCount }

/-- UI updates that touch no worker: changing `skipLayout`
(`setSkipLayout`), the node count (graph mutations) or the layout radio
toggle. -/
def setFlags (s : LayoutState) (sk : Bool) (nc : ℕ) (st : Bool) : LayoutState :=
  { s with skipLayout := sk, nodeCount := nc, staticToggle := st }

/-- One exposed operation of the layout/bundling lifecycle. -/
inductive LayoutStep : LayoutState → LayoutState → Prop
  | setType (s : LayoutState) (t : LayoutKind) : LayoutStep s (setLayoutType s t)
  | bundleOn (s : LayoutState) : LayoutStep s (bundleOn s)
  | bundleOff (s : LayoutState) : LayoutStep s (bundleOff s)
  | reset (s : LayoutState) : LayoutStep s (resetLayout s)
  | resetNav (s : LayoutState) : LayoutStep s (resetNavigation s)
  | stop (s : LayoutState) : LayoutStep s (stopLayout s)
  | gen (s : LayoutState) (n : ℕ) : LayoutStep s (generatorOp s n)
  | flags (s : LayoutState) (sk : Bool) (nc : ℕ) (st : Bool) :
      LayoutStep s (setFlags s sk nc st)

/-- The constructor's initial lifecycle state: `layout = staticLayout`,
nothing running, `skipLayout = false`, empty graph, static radio toggle
selected. -/
def initLayoutState : LayoutState :=
  ⟨false, false, false, .staticL, false, 0, true⟩

/-- States reachable from the initial state under the exposed
operations. -/
inductive LayoutReachable : LayoutState → Prop
  | init : LayoutReachable initLayoutState
  | step {s s' : LayoutState} : LayoutReachable s → LayoutStep s s' → LayoutReachable s'

/-- At most one of the static layout, the dynamic layout and the edge
bundler is running. -/
def atMostOneRunning (s : LayoutState) : Prop :=
  ¬(s.staticRunning = true ∧ s.dynamicRunning = true) ∧
  ¬(s.staticRunning = true ∧ s.bundlerRunning = true) ∧
  ¬(s.dynamicRunning = true ∧ s.bundlerRunning = true)

instance (s : LayoutState) : Decidable (atMostOneRunning s) := by
  unfold atMostOneRunning; infer_instance

/-- The inductive invariant: at most one worker runs, and a running layout
is the one the `layout` pointer designates. -/
def layoutInv (s : LayoutState) : Prop :=
  atMostOneRunning s ∧
  (s.staticRunning = true → s.current = .staticL) ∧
  (s.dynamicRunning = true → s.current = .dynamicL)

instance (s : LayoutState) : Decidable (layoutInv s) := by
  unfold layoutInv; infer_instance

/-! ### Observers for the emitted primitive list -/

/-- Number of emitted primitives whose ordered endpoints are `(s, t)`. -/
def countPrims (s t : ℕ) : List EdgePrim → ℕ
  | [] => 0
  | p :: rest => (if p.source = s ∧ p.target = t then 1 else 0) + countPrims s t rest

/-- The first emitted primitive whose ordered endpoints are `(s, t)`. -/
def firstPrim (s t : ℕ) : List EdgePrim → Option EdgePrim
  | [] => none
  | p :: rest => if p.source = s ∧ p.target = t then some p else firstPrim s t rest

/-- The first edge of the sequence with ordered endpoints `(s, t)` whose
source passes the component filter. -/
def firstEdge (filter : ℕ → Bool) (s t : ℕ) : List Edge → Option Edge
  | [] => none
  | e :: rest =>
    if filter e.source = true ∧ e.source = s ∧ e.target = t then some e
    else firstEdge filter s t rest

/-! ### Unfolding lemmas for the edge loop and its observers -/

theorem drawEdgesLoop_cons_skip (et : ℚ) (filter : ℕ → Bool) (e : Edge)
    (rest : List Edge) (drawn : ℕ → ℕ → Bool)
    (h : filter e.source = false ∨ drawn e.source e.target = true) :
    drawEdgesLoop et filter (e :: rest) drawn = drawEdgesLoop et filter rest drawn := by
  rw [drawEdgesLoop, if_pos h]

theorem drawEdgesLoop_cons_draw (et : ℚ) (filter : ℕ → Bool) (e : Edge)
    (rest : List Edge) (drawn : ℕ → ℕ → Bool)
    (h : ¬(filter e.source = false ∨ drawn e.source e.target = true)) :
    drawEdgesLoop et filter (e :: rest) drawn
      = mkPrim et e :: drawEdgesLoop et filter rest (drawnUpd drawn e.source e.target) := by
  rw [drawEdgesLoop, if_neg h]

theorem countPrims_cons (s t : ℕ) (p : EdgePrim) (rest : List EdgePrim) :
    countPrims s t (p :: rest)
      = (if p.source = s ∧ p.target = t then 1 else 0) + countPrims s t rest := by
  rw [countPrims]

theorem firstPrim_cons_pos (s t : ℕ) (p : EdgePrim) (rest : List EdgePrim)
    (h : p.source = s ∧ p.target = t) :
    firstPrim s t (p :: rest) = some p := by
  rw [firstPrim, if_pos h]

theorem firstPrim_cons_neg (s t : ℕ) (p : EdgePrim) (rest : List EdgePrim)
    (h : ¬(p.source = s ∧ p.target = t)) :
    firstPrim s t (p :: rest) = firstPrim s t rest := by
  rw [firstPrim, if_neg h]

theorem firstEdge_cons_pos (filter : ℕ → Bool) (s t : ℕ) (e : Edge)
    (rest : List Edge) (h : filter e.source = true ∧ e.source = s ∧ e.target = t) :
    firstEdge filter s t (e :: rest) = some e := by
  rw [firstEdge, if_pos h]

theorem firstEdge_cons_neg (filter : ℕ → Bool) (s t : ℕ) (e : Edge)
    (rest : List Edge) (h : ¬(filter e.source = true ∧ e.source = s ∧ e.target = t)) :
    firstEdge filter s t (e :: rest) = firstEdge filter s t rest := by
  rw [firstEdge, if_neg h]

/-! ### Dedup behaviour of `drawEdges` (claims C1, C9) -/

/-- Auxiliary: how many primitives with ordered endpoints `(s, t)` the
edge loop emits, as a function of the incoming `drawn` table. -/
theorem drawEdgesLoop_count (et : ℚ) (filter : ℕ → Bool) (s t : ℕ) :
    ∀ (edges : List Edge) (drawn : ℕ → ℕ → Bool),
      countPrims s t (drawEdgesLoop et filter edges drawn)
        = if drawn s t = true then 0
          else if ∃ e ∈ edges, filter e.source = true ∧ e.source = s ∧ e.target = t
            then 1 else 0 := by
  intro edges
  induction edges with
  | nil =>
    intro drawn
    by_cases hd : drawn s t = true <;> simp [drawEdgesLoop, countPrims, hd]
  | cons e rest ih =>
    intro drawn
    have hcons : (∃ x ∈ e :: rest, filter x.source = true ∧ x.source = s ∧ x.target = t)
        ↔ ((filter e.source = true ∧ e.source = s ∧ e.target = t)
            ∨ ∃ x ∈ rest, filter x.source = true ∧ x.source = s ∧ x.target = t) :=
      List.exists_mem_cons_iff _ e rest
    by_cases hf : filter e.source = false
    · have hne : ¬(filter e.source = true ∧ e.source = s ∧ e.target = t) := by
        rintro ⟨h1, -⟩; rw [hf] at h1; cases h1
      rw [drawEdgesLoop_cons_skip et filter e rest drawn (Or.inl hf), ih drawn]
      by_cases hds : drawn s t = true
      · rw [if_pos hds, if_pos hds]
      · rw [if_neg hds, if_neg hds, if_congr (hcons.trans (or_iff_right hne)) rfl rfl]
    · have hf' : filter e.source = true := by
        revert hf; cases filter e.source <;> simp
      by_cases hde : drawn e.source e.target = true
      · rw [drawEdgesLoop_cons_skip et filter e rest drawn (Or.inr hde), ih drawn]
        by_cases hds : drawn s t = true
        · rw [if_pos hds, if_pos hds]
        · have hne : ¬(filter e.source = true ∧ e.source = s ∧ e.target = t) := by
            rintro ⟨-, h1, h2⟩
            rw [h1, h2] at hde
            exact hds hde
          rw [if_neg hds, if_neg hds, if_congr (hcons.trans (or_iff_right hne)) rfl rfl]
      · have hde' : drawn e.source e.target = false := by
          revert hde; cases drawn e.source e.target <;> simp
        have hcond : ¬(filter e.source = false ∨ drawn e.source e.target = true) := by
          rw [hf', hde']; simp
        rw [drawEdgesLoop_cons_draw et filter e rest drawn hcond, countPrims_cons,
          ih (drawnUpd drawn e.source e.target)]
        by_cases hst : e.source = s ∧ e.target = t
        · rcases hst with ⟨h1, h2⟩
          have hds : drawn s t = false := by rw [← h1, ← h2]; exact hde'
          have hupd : drawnUpd drawn e.source e.target s t = true := by
            simp [drawnUpd, h1, h2]
          rw [if_pos (show (mkPrim et e).source = s ∧ (mkPrim et e).target = t from ⟨h1, h2⟩),
            if_pos hupd, if_neg (by rw [hds]; simp),
            if_pos (hcons.mpr (Or.inl ⟨hf', h1, h2⟩))]
        · have hupd : drawnUpd drawn e.source e.target s t = drawn s t := by
            simp only [drawnUpd]
            rw [if_neg]
            rintro ⟨hh1, hh2⟩
            exact hst ⟨hh1.symm, hh2.symm⟩
          have hne : ¬(filter e.source = true ∧ e.source = s ∧ e.target = t) := by
            rintro ⟨-, h1, h2⟩; exact hst ⟨h1, h2⟩
          rw [if_neg (show ¬((mkPrim et e).source = s ∧ (mkPrim et e).target = t) from hst),
            hupd, zero_add, if_congr Iff.rfl rfl (if_congr (hcons.trans (or_iff_right hne)) rfl rfl)]

/-- Auxiliary: the first primitive with ordered endpoints `(s, t)` comes
from the first filter-passing edge of the sequence with those endpoints
(material and width included). -/
theorem drawEdgesLoop_first (et : ℚ) (filter : ℕ → Bool) (s t : ℕ) :
    ∀ (edges : List Edge) (drawn : ℕ → ℕ → Bool), drawn s t = false →
      firstPrim s t (drawEdgesLoop et filter edges drawn)
        = Option.map (mkPrim et) (firstEdge filter s t edges) := by
  intro edges
  induction edges with
  | nil =>
    intro drawn _
    simp [drawEdgesLoop, firstPrim, firstEdge]
  | cons e rest ih =>
    intro drawn hds
    by_cases hf : filter e.source = false
    · have hne : ¬(filter e.source = true ∧ e.source = s ∧ e.target = t) := by
        rintro ⟨h1, -⟩; rw [hf] at h1; cases h1
      rw [drawEdgesLoop_cons_skip et filter e rest drawn (Or.inl hf),
        firstEdge_cons_neg filter s t e rest hne]
      exact ih drawn hds
    · have hf' : filter e.source = true := by
        revert hf; cases filter e.source <;> simp
      by_cases hde : drawn e.source e.target = true
      · have hne : ¬(filter e.source = true ∧ e.source = s ∧ e.target = t) := by
          rintro ⟨-, h1, h2⟩
          rw [h1, h2] at hde
          rw [hde] at hds
          cases hds
        rw [drawEdgesLoop_cons_skip et filter e rest drawn (Or.inr hde),
          firstEdge_cons_neg filter s t e rest hne]
        exact ih drawn hds
      · have hde' : drawn e.source e.target = false := by
          revert hde; cases drawn e.source e.target <;> simp
        have hcond : ¬(filter e.source = false ∨ drawn e.source e.target = true) := by
          rw [hf', hde']; simp
        rw [drawEdgesLoop_cons_draw et filter e rest drawn hcond]
        by_cases hst : e.source = s ∧ e.target = t
        · rcases hst with ⟨h1, h2⟩
          rw [firstPrim_cons_pos s t _ _ (show (mkPrim et e).source = s ∧ (mkPrim et e).target = t from ⟨h1, h2⟩),
            firstEdge_cons_pos filter s t e rest ⟨hf', h1, h2⟩]
          rfl
        · have hne : ¬(filter e.source = true ∧ e.source = s ∧ e.target = t) := by
            rintro ⟨-, h1, h2⟩; exact hst ⟨h1, h2⟩
          have hupd : drawnUpd drawn e.source e.target s t = false := by
            simp only [drawnUpd]
            rw [if_neg]
            · exact hds
            · rintro ⟨hh1, hh2⟩
              exact hst ⟨hh1.symm, hh2.symm⟩
          rw [firstPrim_cons_neg s t _ _ (show ¬((mkPrim et e).source = s ∧ (mkPrim et e).target = t) from hst),
            firstEdge_cons_neg filter s t e rest hne]
          exact ih (drawnUpd drawn e.source e.target) hupd

/-- C1 (counterexample): the deduplication table of `Mycelia::drawEdges`
is indexed by the ordered pair `drawn[e.source][e.target]`, so for the
graph with nodes `{0, 1}` and the two parallel edges `(0→1)` and `(1→0)`
the non-bundled render pass emits two primitives for the unordered pair
`{0, 1}` — not exactly one as claimed. -/
theorem drawEdges_unordered_dedup_counterexample :
    countPrims 0 1 (drawEdges 1 (fun _ => true) [⟨0, 1, 0, 1⟩, ⟨1, 0, 0, 1⟩])
      + countPrims 1 0 (drawEdges 1 (fun _ => true) [⟨0, 1, 0, 1⟩, ⟨1, 0, 0, 1⟩]) = 2
    ∧ ¬(countPrims 0 1 (drawEdges 1 (fun _ => true) [⟨0, 1, 0, 1⟩, ⟨1, 0, 0, 1⟩])
      + countPrims 1 0 (drawEdges 1 (fun _ => true) [⟨0, 1, 0, 1⟩, ⟨1, 0, 0, 1⟩]) = 1) := by
  constructor
  · with_unfolding_all rfl
  · intro h
    rw [show countPrims 0 1 (drawEdges 1 (fun _ => true) [⟨0, 1, 0, 1⟩, ⟨1, 0, 0, 1⟩])
        + countPrims 1 0 (drawEdges 1 (fun _ => true) [⟨0, 1, 0, 1⟩, ⟨1, 0, 0, 1⟩]) = 2
        from by with_unfolding_all rfl] at h
    cases h

/-- C1 (amended): in the non-bundled render path, `Mycelia::drawEdges`
emits exactly one edge primitive for every ORDERED pair `(s, t)` of node
indices with at least one filter-passing edge from `s` to `t` (duplicate
edges with the same direction are dropped, the first edge encountered
determining material and width); in particular, the graph with nodes
`{0, 1}` and edges `(0→1)` and `(1→0)` yields one primitive per
direction, i.e. two for the unordered pair. -/
theorem drawEdges_ordered_dedup (et : ℚ) (filter : ℕ → Bool)
    (edges : List Edge) (s t : ℕ) :
    (countPrims s t (drawEdges et filter edges)
      = if ∃ e ∈ edges, filter e.source = true ∧ e.source = s ∧ e.target = t
          then 1 else 0)
    ∧ firstPrim s t (drawEdges et filter edges)
        = Option.map (mkPrim et) (firstEdge filter s t edges)
    ∧ countPrims 0 1 (drawEdges 1 (fun _ => true) [⟨0, 1, 0, 1⟩, ⟨1, 0, 0, 1⟩])
      + countPrims 1 0 (drawEdges 1 (fun _ => true) [⟨0, 1, 0, 1⟩, ⟨1, 0, 0, 1⟩]) = 2 := by
  refine ⟨?_, ?_, by with_unfolding_all rfl⟩
  · rw [drawEdges, drawEdgesLoop_count, if_neg (by simp)]
  · exact drawEdgesLoop_first et filter s t edges (fun _ _ => false) rfl

/-- C9: every access to the fixed `bool drawn[1000][1000]` table of
`Mycelia::drawEdges` is at the unchecked indices
`[e.source][e.target]`; all accesses are in bounds when every edge
endpoint is below 1000, and any filter-passing edge with an endpoint of
1000 or more produces an out-of-bounds access. -/
theorem drawEdges_dedup_table_bounds (filter : ℕ → Bool) (edges : List Edge) :
    ((∀ e ∈ edges, e.source < 1000 ∧ e.target < 1000) →
      ∀ p ∈ drawnTableAccesses filter edges, accessInBounds p)
    ∧ (∀ e ∈ edges, filter e.source = true → 1000 ≤ e.source ∨ 1000 ≤ e.target →
        ∃ p ∈ drawnTableAccesses filter edges, ¬accessInBounds p) := by
  constructor
  · intro h p hp
    simp only [drawnTableAccesses, List.mem_map, List.mem_filter] at hp
    rcases hp with ⟨e, ⟨he, -⟩, rfl⟩
    exact ⟨(h e he).1, (h e he).2⟩
  · intro e he hf hge
    refine ⟨(e.source, e.target), ?_, ?_⟩
    · simp only [drawnTableAccesses, List.mem_map, List.mem_filter]
      exact ⟨e, ⟨he, hf⟩, rfl⟩
    · rintro ⟨hb1, hb2⟩
      rcases hge with h | h
      · exact absurd hb1 (not_lt.mpr h)
      · exact absurd hb2 (not_lt.mpr h)

/-- Witness for C9: a concrete in-bounds graph and a concrete graph with
node index 1000 whose edge makes the table access go out of bounds. -/
theorem drawEdges_dedup_table_bounds_witness :
    (∀ p ∈ drawnTableAccesses (fun _ => true) [⟨1, 2, 0, 1⟩], accessInBounds p)
    ∧ ∃ p ∈ drawnTableAccesses (fun _ => true) [⟨1000, 0, 0, 1⟩], ¬accessInBounds p :=
  ⟨(drawEdges_dedup_table_bounds (fun _ => true) [⟨1, 2, 0, 1⟩]).1
      (by intro e he; simp at he; rw [he]; exact ⟨by norm_num, by norm_num⟩),
   (drawEdges_dedup_table_bounds (fun _ => true) [⟨1000, 0, 0, 1⟩]).2
      ⟨1000, 0, 0, 1⟩ (by simp) rfl (Or.inl (by norm_num))⟩

/-- C7: arrow foreshortening in `Mycelia::drawEdge`: a bidirectional edge
with an arrow is shortened at both ends (`sourceOffset = edgeOffset`,
cylinder length `length - 2 * edgeOffset`); a unidirectional edge with an
arrow only at the target end (`sourceOffset = 0`, cylinder length
`length - edgeOffset`); with arrows disabled the cylinder spans the full
edge length. -/
theorem drawEdge_offsets_spec (L O : ℚ) :
    edgeOffsets L O true true = (O, L - 2 * O)
    ∧ edgeOffsets L O true false = (0, L - O)
    ∧ ∀ b : Bool, edgeOffsets L O false b = (0, L) := by
  refine ⟨rfl, rfl, fun b => ?_⟩
  cases b <;> rfl

/-- C8: selecting an invalid node index is a no-op plus a diagnostic:
`Mycelia::setSelectedNode` leaves `selectedNode`, `previousNode` and the
graph untouched and only prints a message. -/
theorem setSelectedNode_invalid_noop (isValidNode : ℤ → Bool) (s : AppState)
    (node : ℤ) (h : isValidNode node = false) :
    (setSelectedNode isValidNode s node).selectedNode = s.selectedNode
    ∧ (setSelectedNode isValidNode s node).previousNode = s.previousNode
    ∧ (setSelectedNode isValidNode s node).graphVersion = s.graphVersion
    ∧ (setSelectedNode isValidNode s node).log = s.log ++ ["invalid node selected"] := by
  rw [setSelectedNode, if_pos h]
  exact ⟨rfl, rfl, rfl, rfl⟩

/-- Witness for C8: a concrete invalid selection (node 7 with no node
valid) changes nothing but the diagnostic log. -/
theorem setSelectedNode_invalid_noop_witness :
    (setSelectedNode (fun _ => false) ⟨3, 1, 0, []⟩ 7).selectedNode = (1 : ℤ)
    ∧ (setSelectedNode (fun _ => false) ⟨3, 1, 0, []⟩ 7).previousNode = (0 : ℤ)
    ∧ (setSelectedNode (fun _ => false) ⟨3, 1, 0, []⟩ 7).graphVersion = 3
    ∧ (setSelectedNode (fun _ => false) ⟨3, 1, 0, []⟩ 7).log
        = [] ++ ["invalid node selected"] :=
  setSelectedNode_invalid_noop (fun _ => false) ⟨3, 1, 0, []⟩ 7 rfl

/-- C4: the render-cache protocol of `Mycelia::display`: the cache is left
untouched when its version matches the graph copy's version, rebuilt
wholesale by `buildGraphList` (with no dependence on the stale cache)
otherwise, and in either case the cache version equals the graph version
afterwards. -/
theorem displayCache_version_protocol (et : ℚ) (filter : ℕ → Bool)
    (g : GraphCopy) (d : DataItem) :
    (displayCache et filter g d).graphListVersion = g.version
    ∧ (d.graphListVersion = g.version → displayCache et filter g d = d)
    ∧ (d.graphListVersion ≠ g.version →
        displayCache et filter g d = buildGraphList et filter g) := by
  by_cases h : d.graphListVersion = g.version
  · refine ⟨?_, fun _ => ?_, fun hne => absurd h hne⟩
    · simp [displayCache, h]
    · simp [displayCache, h]
  · refine ⟨?_, fun he => absurd he h, fun _ => ?_⟩
    · simp [displayCache, h, buildGraphList]
    · simp [displayCache, h]

/-- Witness for C4: a stale cache (version 4 against graph version 5) is
rebuilt, a fresh cache (version 5) is reused. -/
theorem displayCache_version_protocol_witness :
    displayCache 1 (fun _ => true) ⟨[], fun _ => "shape", "rotate", [], 5⟩ ⟨4, ([], [])⟩
      = buildGraphList 1 (fun _ => true) ⟨[], fun _ => "shape", "rotate", [], 5⟩
    ∧ displayCache 1 (fun _ => true) ⟨[], fun _ => "shape", "rotate", [], 5⟩ ⟨5, ([], [])⟩
      = ⟨5, ([], [])⟩ :=
  ⟨(displayCache_version_protocol 1 (fun _ => true)
      ⟨[], fun _ => "shape", "rotate", [], 5⟩ ⟨4, ([], [])⟩).2.2 (by norm_num),
   (displayCache_version_protocol 1 (fun _ => true)
      ⟨[], fun _ => "shape", "rotate", [], 5⟩ ⟨5, ([], [])⟩).2.1 rfl⟩

/-! ### Mutual exclusion of the layout workers (claim C5) -/

theorem layoutInv_stopLayout (s : LayoutState) : layoutInv (stopLayout s) := by
  simp [layoutInv, atMostOneRunning, stopLayout]

theorem layoutInv_startLayout (s : LayoutState) (h : layoutInv s)
    (hb : s.bundlerRunning = false) : layoutInv (startLayout s) := by
  obtain ⟨sr, dr, br, cur, sk, nc, st⟩ := s
  cases cur <;> cases sr <;> cases dr <;> cases br <;>
    simp_all [layoutInv, atMostOneRunning, startLayout]

theorem layoutInv_resumeLayout (s : LayoutState) (h : layoutInv s)
    (hb : s.bundlerRunning = false) : layoutInv (resumeLayout s) := by
  rw [resumeLayout]
  by_cases hc : s.current = LayoutKind.dynamicL ∧ s.skipLayout = false
  · rw [if_pos hc]
    exact layoutInv_startLayout s h hb
  · rw [if_neg hc]
    exact h

theorem layoutInv_setLayoutType (s : LayoutState) (t : LayoutKind)
    (h : layoutInv s) : layoutInv (setLayoutType s t) := by
  obtain ⟨sr, dr, br, cur, sk, nc, st⟩ := s
  cases t <;> cases cur <;> cases sr <;> cases dr <;> cases br <;>
    simp_all [layoutInv, atMostOneRunning, setLayoutType, stopLayout]

theorem setLayoutType_bundler (s : LayoutState) (t : LayoutKind)
    (hb : s.bundlerRunning = false) : (setLayoutType s t).bundlerRunning = false := by
  obtain ⟨sr, dr, br, cur, sk, nc, st⟩ := s
  cases t <;> cases cur <;> simp_all [setLayoutType, stopLayout]

theorem layoutInv_bundleOn (s : LayoutState) (h : layoutInv s) :
    layoutInv (bundleOn s) := by
  rw [bundleOn]
  by_cases hnc : s.nodeCount = 0
  · rw [if_pos hnc]; exact h
  · rw [if_neg hnc]
    simp [layoutInv, atMostOneRunning, stopLayout]

theorem layoutInv_bundleOff (s : LayoutState) (h : layoutInv s) :
    layoutInv (bundleOff s) := by
  rw [bundleOff]
  by_cases hnc : s.nodeCount = 0
  · rw [if_pos hnc]; exact h
  · rw [if_neg hnc]
    refine layoutInv_resumeLayout _ ?_ rfl
    obtain ⟨sr, dr, br, cur, sk, nc, st⟩ := s
    cases sr <;> cases dr <;> cases br <;>
      simp_all [layoutInv, atMostOneRunning]

theorem layoutInv_resetLayout (s : LayoutState) : layoutInv (resetLayout s) := by
  rw [resetLayout]
  have h2 := layoutInv_setLayoutType (stopLayout s)
    (if s.staticToggle then .staticL else .dynamicL) (layoutInv_stopLayout s)
  have hb2 := setLayoutType_bundler (stopLayout s)
    (if s.staticToggle then .staticL else .dynamicL) rfl
  by_cases hc : s.skipLayout = true ∨ s.nodeCount = 0
  · rw [if_pos hc]; exact h2
  · rw [if_neg hc]
    exact layoutInv_startLayout _ h2 hb2

theorem layoutInv_resetNavigation (s : LayoutState) :
    layoutInv (resetNavigation s) := by
  rw [resetNavigation]
  by_cases hw : layoutIsStopped s = false
  · simp only [hw, if_pos]
    exact layoutInv_resumeLayout _ (layoutInv_stopLayout s) rfl
  · simp only [hw, if_neg]
    split
    · exact layoutInv_resumeLayout _ (layoutInv_stopLayout s) rfl
    · exact layoutInv_stopLayout s

theorem layoutInv_generatorOp (s : LayoutState) (n : ℕ) (h : layoutInv s) :
    layoutInv (generatorOp s n) := by
  rw [generatorOp]
  have h1 := layoutInv_setLayoutType s .dynamicL h
  have hb1 : (setLayoutType s LayoutKind.dynamicL).bundlerRunning = false := by
    obtain ⟨sr, dr, br, cur, sk, nc, st⟩ := s
    cases cur <;> simp [setLayoutType, stopLayout]
  refine layoutInv_resumeLayout _ ?_ ?_
  · obtain ⟨inv1, hs1, hd1⟩ := h1
    exact ⟨⟨fun ⟨a, b⟩ => inv1.1 ⟨a, b⟩, fun ⟨a, b⟩ => inv1.2.1 ⟨a, hb1 ▸ b⟩,
      fun ⟨a, b⟩ => inv1.2.2 ⟨a, hb1 ▸ b⟩⟩, hs1, hd1⟩
  · exact hb1

theorem layoutInv_setFlags (s : LayoutState) (sk : Bool) (nc : ℕ) (st : Bool)
    (h : layoutInv s) : layoutInv (setFlags s sk nc st) := by
  obtain ⟨sr, dr, br, cur, sk0, nc0, st0⟩ := s
  simp_all [layoutInv, atMostOneRunning, setFlags]

theorem layoutStep_inv {s s' : LayoutState} (h : layoutInv s)
    (hs : LayoutStep s s') : layoutInv s' := by
  cases hs with
  | setType t => exact layoutInv_setLayoutType s t h
  | bundleOn => exact layoutInv_bundleOn s h
  | bundleOff => exact layoutInv_bundleOff s h
  | reset => exact layoutInv_resetLayout s
  | resetNav => exact layoutInv_resetNavigation s
  | stop => exact layoutInv_stopLayout s
  | gen n => exact layoutInv_generatorOp s n h
  | flags sk nc st => exact layoutInv_setFlags s sk nc st h

/-- C5: at most one of the static layout, the dynamic layout and the edge
bundler is Running in any state reachable from the initial state under the
exposed layout/bundling operations: every operation that starts a worker
(`setLayoutType`, enabling bundling, resetting the layout, the generator
callback, recentering) stops the previously running one first, so the
two-running state is unreachable. -/
theorem layout_atMostOne_reachable {s : LayoutState}
    (h : LayoutReachable s) : atMostOneRunning s := by
  have hinv : layoutInv s := by
    induction h with
    | init => decide
    | step _ hstep ih => exact layoutStep_inv ih hstep
  exact hinv.1

/-- Witness for C5: the state reached by loading a 5-node graph and then
enabling edge bundling has at most one worker running. -/
theorem layout_atMostOne_reachable_witness :
    atMostOneRunning (bundleOn (setFlags initLayoutState false 5 true)) :=
  layout_atMostOne_reachable
    (LayoutReachable.step
      (LayoutReachable.step LayoutReachable.init
        (LayoutStep.flags initLayoutState false 5 true))
      (LayoutStep.bundleOn (setFlags initLayoutState false 5 true)))

/-! ### Point-mode picking (claim C3) -/

/-- The outcome guaranteed by the point-selection loop: either the
sentinel and no node within the radius, or a nearest node within the
radius. -/
def PointOutcome (pos : ℕ → Vec3) (click : Vec3) (radius2 : ℚ)
    (nodes : List ℕ) (r : ℤ) : Prop :=
  (r = SELECTION_NONE ∧ ∀ n ∈ nodes, ¬sqrDist click (pos n) < radius2)
  ∨ (∃ m ∈ nodes, r = (m : ℤ) ∧ sqrDist click (pos m) < radius2 ∧
      ∀ n ∈ nodes, sqrDist click (pos m) ≤ sqrDist click (pos n))

/-- Auxiliary: the loop invariant of `Mycelia::selectNode(const
Vrui::Point&)` — the accumulator is either the untouched sentinel with
`minDist2` still at the threshold, or the nearest node seen so far. -/
theorem selectPointLoop_spec (pos : ℕ → Vec3) (click : Vec3) (radius2 : ℚ) :
    ∀ (nodes processed : List ℕ) (result : ℤ) (minDist2 : ℚ),
      ((result = SELECTION_NONE ∧ minDist2 = radius2 ∧
          ∀ n ∈ processed, ¬sqrDist click (pos n) < radius2)
        ∨ (∃ m ∈ processed, result = (m : ℤ) ∧ minDist2 = sqrDist click (pos m) ∧
            minDist2 < radius2 ∧ ∀ n ∈ processed, minDist2 ≤ sqrDist click (pos n))) →
      PointOutcome pos click radius2 (processed ++ nodes)
        (selectPointLoop pos click nodes result minDist2) := by
  intro nodes
  induction nodes with
  | nil =>
    intro processed result minDist2 hinv
    rcases hinv with ⟨h1, -, h3⟩ | ⟨m, hm, h1, h2, h3, h4⟩
    · left
      rw [selectPointLoop]
      exact ⟨h1, by simpa using h3⟩
    · right
      subst h2
      refine ⟨m, by simpa using hm, ?_, h3, by simpa using h4⟩
      rw [selectPointLoop]
      exact h1
  | cons n rest ih =>
    intro processed result minDist2 hinv
    have happ : (processed ++ [n]) ++ rest = processed ++ n :: rest := by simp
    by_cases hlt : sqrDist click (pos n) < minDist2
    · rw [selectPointLoop, if_pos hlt]
      have hnr : sqrDist click (pos n) < radius2 := by
        rcases hinv with ⟨-, h2, -⟩ | ⟨m, -, -, -, h3, -⟩
        · rw [← h2]; exact hlt
        · exact lt_trans hlt h3
      have hmin : ∀ k ∈ processed, sqrDist click (pos n) ≤ sqrDist click (pos k) := by
        intro k hk
        rcases hinv with ⟨-, h2, h3⟩ | ⟨m, -, -, -, -, h4⟩
        · have := h3 k hk
          rw [← h2] at this
          exact le_of_lt (lt_of_lt_of_le hlt (not_lt.mp this))
        · exact le_of_lt (lt_of_lt_of_le hlt (h4 k hk))
      have hinv' : ((n : ℤ) = SELECTION_NONE ∧ sqrDist click (pos n) = radius2 ∧
            ∀ k ∈ processed ++ [n], ¬sqrDist click (pos k) < radius2)
          ∨ (∃ m ∈ processed ++ [n], (n : ℤ) = (m : ℤ) ∧
              sqrDist click (pos n) = sqrDist click (pos m) ∧
              sqrDist click (pos n) < radius2 ∧
              ∀ k ∈ processed ++ [n], sqrDist click (pos n) ≤ sqrDist click (pos k)) := by
        right
        refine ⟨n, by simp, rfl, rfl, hnr, ?_⟩
        intro k hk
        rcases List.mem_append.mp hk with hk | hk
        · exact hmin k hk
        · rw [List.mem_singleton.mp hk]
      have := ih (processed ++ [n]) (n : ℤ) (sqrDist click (pos n)) hinv'
      rwa [happ] at this
    · rw [selectPointLoop, if_neg hlt]
      have hinv' : (result = SELECTION_NONE ∧ minDist2 = radius2 ∧
            ∀ k ∈ processed ++ [n], ¬sqrDist click (pos k) < radius2)
          ∨ (∃ m ∈ processed ++ [n], result = (m : ℤ) ∧
              minDist2 = sqrDist click (pos m) ∧ minDist2 < radius2 ∧
              ∀ k ∈ processed ++ [n], minDist2 ≤ sqrDist click (pos k)) := by
        rcases hinv with ⟨h1, h2, h3⟩ | ⟨m, hm, h1, h2, h3, h4⟩
        · left
          refine ⟨h1, h2, ?_⟩
          intro k hk
          rcases List.mem_append.mp hk with hk | hk
          · exact h3 k hk
          · rw [List.mem_singleton.mp hk]
            rw [← h2]
            exact hlt
        · right
          refine ⟨m, List.mem_append.mpr (Or.inl hm), h1, h2, h3, ?_⟩
          intro k hk
          rcases List.mem_append.mp hk with hk | hk
          · exact h4 k hk
          · rw [List.mem_singleton.mp hk]
            exact not_lt.mp hlt
      have := ih (processed ++ [n]) result minDist2 hinv'
      rwa [happ] at this

/-- C3: point-mode selection returns the node of minimum squared distance
to the query point provided that distance is below the node-radius
squared, and the sentinel otherwise (in particular on an empty graph);
concretely, a node at the origin with node-radius 1 is selected from
query point `(0.5, 0, 0)` and not from `(2, 0, 0)`. -/
theorem selectNodePoint_spec (pos : ℕ → Vec3) (click : Vec3) (radius : ℚ)
    (nodes : List ℕ) :
    (selectNodePoint pos click radius nodes = SELECTION_NONE ↔
      ∀ n ∈ nodes, ¬sqrDist click (pos n) < radius * radius)
    ∧ (∀ n ∈ nodes, sqrDist click (pos n) < radius * radius →
        ∃ m ∈ nodes, selectNodePoint pos click radius nodes = (m : ℤ)
          ∧ sqrDist click (pos m) < radius * radius
          ∧ ∀ k ∈ nodes, sqrDist click (pos m) ≤ sqrDist click (pos k))
    ∧ selectNodePoint (fun _ => ⟨0, 0, 0⟩) ⟨1/2, 0, 0⟩ 1 [0] = 0
    ∧ selectNodePoint (fun _ => ⟨0, 0, 0⟩) ⟨2, 0, 0⟩ 1 [0] = SELECTION_NONE := by
  have houtcome : PointOutcome pos click (radius * radius) nodes
      (selectNodePoint pos click radius nodes) := by
    have := selectPointLoop_spec pos click (radius * radius) nodes []
      SELECTION_NONE (radius * radius) (Or.inl ⟨rfl, rfl, by simp⟩)
    simpa [selectNodePoint] using this
  refine ⟨⟨?_, ?_⟩, ?_, by with_unfolding_all rfl, by with_unfolding_all rfl⟩
  · intro hnone n hn
    rcases houtcome with ⟨-, hall⟩ | ⟨m, -, hm, -, -⟩
    · exact hall n hn
    · rw [hnone] at hm
      rw [SELECTION_NONE] at hm
      omega
  · intro hall
    rcases houtcome with ⟨h1, -⟩ | ⟨m, hm, -, hlt, -⟩
    · exact h1
    · exact absurd hlt (hall m hm)
  · intro n hn hlt
    rcases houtcome with ⟨-, hall⟩ | ⟨m, hm, h1, h2, h3⟩
    · exact absurd hlt (hall n hn)
    · exact ⟨m, hm, h1, h2, h3⟩

/-- Witness for C3: from query point `(0.5, 0, 0)` the loop selects the
node at the origin as the nearest in-radius node. -/
theorem selectNodePoint_spec_witness :
    ∃ m ∈ ([0] : List ℕ),
      selectNodePoint (fun _ => ⟨0, 0, 0⟩) ⟨1/2, 0, 0⟩ 1 [0] = (m : ℤ)
      ∧ sqrDist ⟨1/2, 0, 0⟩ (⟨0, 0, 0⟩ : Vec3) < 1 * 1
      ∧ ∀ k ∈ ([0] : List ℕ), sqrDist ⟨1/2, 0, 0⟩ (⟨0, 0, 0⟩ : Vec3)
          ≤ sqrDist ⟨1/2, 0, 0⟩ (⟨0, 0, 0⟩ : Vec3) :=
  (selectNodePoint_spec (fun _ => ⟨0, 0, 0⟩) ⟨1/2, 0, 0⟩ 1 [0]).2.1 0
    (by simp) (by with_unfolding_all decide)

/-! ### Ray-mode picking (claims C2, C10) -/

/-- The outcome guaranteed by the ray-selection loop: either the sentinel
and no candidate in the cone, or a candidate of minimal forward
projection. -/
def RayOutcome (pos : ℕ → Vec3) (origin dir : Vec3) (coneAngle2 : ℚ)
    (nodes : List ℕ) (r : ℤ) : Prop :=
  (r = SELECTION_NONE ∧ ∀ n ∈ nodes, ¬rayCandidate pos origin dir coneAngle2 n)
  ∨ (∃ m ∈ nodes, r = (m : ℤ) ∧ rayCandidate pos origin dir coneAngle2 m ∧
      ∀ n ∈ nodes, rayCandidate pos origin dir coneAngle2 n →
        rayProj pos origin dir m ≤ rayProj pos origin dir n)

/-- Auxiliary: the loop invariant of `Mycelia::selectNode(const
Vrui::Ray&)` — the accumulator is either the untouched sentinel with
`lambdaMin` still at `numeric_limits<float>::max()`, or the cone
candidate of smallest forward projection seen so far. Every remaining
node must project below `fltMax` (true of any value a float computation
can produce). -/
theorem selectRayLoop_spec (pos : ℕ → Vec3) (origin dir : Vec3) (coneAngle2 : ℚ) :
    ∀ (nodes processed : List ℕ) (st : RayLoopState),
      (∀ n ∈ nodes, rayProj pos origin dir n < fltMax) →
      ((st.result = SELECTION_NONE ∧ st.lambdaMin = fltMax ∧
          ∀ n ∈ processed, ¬rayCandidate pos origin dir coneAngle2 n)
        ∨ (∃ m ∈ processed, st.result = (m : ℤ) ∧
            rayCandidate pos origin dir coneAngle2 m ∧
            st.lambdaMin = rayProj pos origin dir m ∧
            ∀ n ∈ processed, rayCandidate pos origin dir coneAngle2 n →
              st.lambdaMin ≤ rayProj pos origin dir n)) →
      RayOutcome pos origin dir coneAngle2 (processed ++ nodes)
        (selectRayLoop pos origin dir coneAngle2 nodes st).result := by
  intro nodes
  induction nodes with
  | nil =>
    intro processed st _ hinv
    rcases hinv with ⟨h1, -, h3⟩ | ⟨m, hm, h1, h2, h3, h4⟩
    · left
      rw [selectRayLoop]
      exact ⟨h1, by simpa using h3⟩
    · right
      refine ⟨m, by simpa using hm, ?_, h2, ?_⟩
      · rw [selectRayLoop]
        exact h1
      · intro n hn hc
        have := h4 n (by simpa using hn) hc
        rw [← h3]
        exact this
  | cons n rest ih =>
    intro processed st hmax hinv
    have hmax' : ∀ k ∈ rest, rayProj pos origin dir k < fltMax :=
      fun k hk => hmax k (List.mem_cons_of_mem n hk)
    have hmaxn : rayProj pos origin dir n < fltMax := hmax n (List.mem_cons_self n rest)
    have happ : (processed ++ [n]) ++ rest = processed ++ n :: rest := by simp
    simp only [selectRayLoop]
    by_cases hg : 0 ≤ rayProj pos origin dir n ∧ rayProj pos origin dir n < st.lambdaMin
    · rw [if_pos hg]
      by_cases hcone : rayPerp2 pos origin dir n /
          (rayProj pos origin dir n * rayProj pos origin dir n) ≤ coneAngle2
      · rw [if_pos hcone]
        have hcand : rayCandidate pos origin dir coneAngle2 n := ⟨hg.1, hcone⟩
        have hinv' : (((n : ℤ) = SELECTION_NONE ∧
              rayProj pos origin dir n = fltMax ∧
              ∀ k ∈ processed ++ [n], ¬rayCandidate pos origin dir coneAngle2 k)
            ∨ (∃ m ∈ processed ++ [n], (n : ℤ) = (m : ℤ) ∧
                rayCandidate pos origin dir coneAngle2 m ∧
                rayProj pos origin dir n = rayProj pos origin dir m ∧
                ∀ k ∈ processed ++ [n], rayCandidate pos origin dir coneAngle2 k →
                  rayProj pos origin dir n ≤ rayProj pos origin dir k)) := by
          right
          refine ⟨n, by simp, rfl, hcand, rfl, ?_⟩
          intro k hk hck
          rcases List.mem_append.mp hk with hk | hk
          · rcases hinv with ⟨-, h2, h3⟩ | ⟨m, -, -, -, h3, h4⟩
            · exact absurd hck (h3 k hk)
            · exact le_of_lt (lt_of_lt_of_le (h3 ▸ hg.2) (h4 k hk hck))
          · rw [List.mem_singleton.mp hk]
        have := ih (processed ++ [n]) ⟨(n : ℤ), rayProj pos origin dir n,
          st.divByZero || decide (rayProj pos origin dir n = 0)⟩ hmax' hinv'
        rwa [happ] at this
      · rw [if_neg hcone]
        have hnc : ¬rayCandidate pos origin dir coneAngle2 n := fun hc => hcone hc.2
        have hinv' : ((st.result = SELECTION_NONE ∧ st.lambdaMin = fltMax ∧
              ∀ k ∈ processed ++ [n], ¬rayCandidate pos origin dir coneAngle2 k)
            ∨ (∃ m ∈ processed ++ [n], st.result = (m : ℤ) ∧
                rayCandidate pos origin dir coneAngle2 m ∧
                st.lambdaMin = rayProj pos origin dir m ∧
                ∀ k ∈ processed ++ [n], rayCandidate pos origin dir coneAngle2 k →
                  st.lambdaMin ≤ rayProj pos origin dir k)) := by
          rcases hinv with ⟨h1, h2, h3⟩ | ⟨m, hm, h1, h2, h3, h4⟩
          · left
            refine ⟨h1, h2, ?_⟩
            intro k hk
            rcases List.mem_append.mp hk with hk | hk
            · exact h3 k hk
            · rw [List.mem_singleton.mp hk]; exact hnc
          · right
            refine ⟨m, List.mem_append.mpr (Or.inl hm), h1, h2, h3, ?_⟩
            intro k hk hck
            rcases List.mem_append.mp hk with hk | hk
            · exact h4 k hk hck
            · rw [List.mem_singleton.mp hk] at hck
              exact absurd hck hnc
        have := ih (processed ++ [n]) ⟨st.result, st.lambdaMin,
          st.divByZero || decide (rayProj pos origin dir n = 0)⟩ hmax' hinv'
        rwa [happ] at this
    · rw [if_neg hg]
      have hinv' : ((st.result = SELECTION_NONE ∧ st.lambdaMin = fltMax ∧
            ∀ k ∈ processed ++ [n], ¬rayCandidate pos origin dir coneAngle2 k)
          ∨ (∃ m ∈ processed ++ [n], st.result = (m : ℤ) ∧
              rayCandidate pos origin dir coneAngle2 m ∧
              st.lambdaMin = rayProj pos origin dir m ∧
              ∀ k ∈ processed ++ [n], rayCandidate pos origin dir coneAngle2 k →
                st.lambdaMin ≤ rayProj pos origin dir k)) := by
        rcases hinv with ⟨h1, h2, h3⟩ | ⟨m, hm, h1, h2, h3, h4⟩
        · left
          refine ⟨h1, h2, ?_⟩
          intro k hk
          rcases List.mem_append.mp hk with hk | hk
          · exact h3 k hk
          · rw [List.mem_singleton.mp hk]
            intro hc
            rcases not_and_or.mp hg with hx | hx
            · exact hx hc.1
            · rw [h2] at hx
              exact hx hmaxn
        · right
          refine ⟨m, List.mem_append.mpr (Or.inl hm), h1, h2, h3, ?_⟩
          intro k hk hck
          rcases List.mem_append.mp hk with hk | hk
          · exact h4 k hk hck
          · rw [List.mem_singleton.mp hk] at hck ⊢
            rcases not_and_or.mp hg with hx | hx
            · exact absurd hck.1 hx
            · exact le_of_not_lt hx
      exact happ ▸ ih (processed ++ [n]) st hmax' hinv'

/-- C2: ray-mode selection: a node is a candidate exactly when its
forward projection `x` satisfies `x ≥ 0` and the squared perpendicular
offset over `x²` is within the cone-angle-squared threshold; among
candidates the node of smallest `x` is returned, and the sentinel when no
node qualifies. Concretely, from origin `(0,0,0)` along `(1,0,0)` with
the tight cone angle `0.005`, the node at `(5,0,0)` is selected and the
node at `(5,1,0)` is not a candidate. Positions are assumed to project
below `numeric_limits<float>::max()`, the initial `lambdaMin`. -/
theorem selectNodeRay_spec (pos : ℕ → Vec3) (origin dir : Vec3)
    (coneAngle : ℚ) (nodes : List ℕ)
    (hmax : ∀ n ∈ nodes, rayProj pos origin dir n < fltMax) :
    (selectNodeRay pos origin dir coneAngle nodes = SELECTION_NONE ↔
      ∀ n ∈ nodes, ¬rayCandidate pos origin dir (coneAngle * coneAngle) n)
    ∧ (∀ n ∈ nodes, rayCandidate pos origin dir (coneAngle * coneAngle) n →
        ∃ m ∈ nodes, selectNodeRay pos origin dir coneAngle nodes = (m : ℤ)
          ∧ rayCandidate pos origin dir (coneAngle * coneAngle) m
          ∧ ∀ k ∈ nodes, rayCandidate pos origin dir (coneAngle * coneAngle) k →
              rayProj pos origin dir m ≤ rayProj pos origin dir k)
    ∧ selectNodeRay (fun n => if n = 0 then ⟨5, 0, 0⟩ else ⟨5, 1, 0⟩)
        ⟨0, 0, 0⟩ ⟨1, 0, 0⟩ (5/1000) [1, 0] = 0
    ∧ rayCandidate (fun n => if n = 0 then ⟨5, 0, 0⟩ else ⟨5, 1, 0⟩)
        ⟨0, 0, 0⟩ ⟨1, 0, 0⟩ (5/1000 * (5/1000)) 0
    ∧ ¬rayCandidate (fun n => if n = 0 then ⟨5, 0, 0⟩ else ⟨5, 1, 0⟩)
        ⟨0, 0, 0⟩ ⟨1, 0, 0⟩ (5/1000 * (5/1000)) 1 := by
  have houtcome : RayOutcome pos origin dir (coneAngle * coneAngle) nodes
      (selectNodeRay pos origin dir coneAngle nodes) := by
    have := selectRayLoop_spec pos origin dir (coneAngle * coneAngle) nodes []
      ⟨SELECTION_NONE, fltMax, false⟩ hmax (Or.inl ⟨rfl, rfl, by simp⟩)
    simpa [selectNodeRay] using this
  refine ⟨⟨?_, ?_⟩, ?_, by with_unfolding_all rfl,
    by with_unfolding_all decide, by with_unfolding_all decide⟩
  · intro hnone n hn
    rcases houtcome with ⟨-, hall⟩ | ⟨m, -, hm, -, -⟩
    · exact hall n hn
    · rw [hnone] at hm
      rw [SELECTION_NONE] at hm
      omega
  · intro hall
    rcases houtcome with ⟨h1, -⟩ | ⟨m, hm, -, hc, -⟩
    · exact h1
    · exact absurd hc (hall m hm)
  · intro n hn hc
    rcases houtcome with ⟨-, hall⟩ | ⟨m, hm, h1, h2, h3⟩
    · exact absurd hc (hall n hn)
    · exact ⟨m, hm, h1, h2, h3⟩

/-- Witness for C2: the two-node configuration of the spec's ray-picking
test, scanned in the order `[1, 0]` so that both the cone rejection and
the acceptance fire; node 0 at `(5,0,0)` is selected. -/
theorem selectNodeRay_spec_witness :
    selectNodeRay (fun n => if n = 0 then ⟨5, 0, 0⟩ else ⟨5, 1, 0⟩)
      ⟨0, 0, 0⟩ ⟨1, 0, 0⟩ (5/1000) [1, 0] = 0 :=
  (selectNodeRay_spec (fun n => if n = 0 then ⟨5, 0, 0⟩ else ⟨5, 1, 0⟩)
    ⟨0, 0, 0⟩ ⟨1, 0, 0⟩ (5/1000) [1, 0]
    (by with_unfolding_all decide)).2.2.1

/-- Auxiliary: the division-by-zero flag of the ray loop never rises when
every scanned node has nonzero forward projection. -/
theorem selectRayLoop_divByZero (pos : ℕ → Vec3) (origin dir : Vec3)
    (coneAngle2 : ℚ) :
    ∀ (nodes : List ℕ) (st : RayLoopState),
      (∀ n ∈ nodes, rayProj pos origin dir n ≠ 0) →
      (selectRayLoop pos origin dir coneAngle2 nodes st).divByZero
        = st.divByZero := by
  intro nodes
  induction nodes with
  | nil =>
    intro st _
    rw [selectRayLoop]
  | cons n rest ih =>
    intro st h
    have hn : rayProj pos origin dir n ≠ 0 := h n (List.mem_cons_self n rest)
    have hrest : ∀ k ∈ rest, rayProj pos origin dir k ≠ 0 :=
      fun k hk => h k (List.mem_cons_of_mem n hk)
    have hdec : decide (rayProj pos origin dir n = 0) = false :=
      decide_eq_false hn
    simp only [selectRayLoop]
    by_cases hg : 0 ≤ rayProj pos origin dir n ∧
        rayProj pos origin dir n < st.lambdaMin
    · rw [if_pos hg]
      by_cases hcone : rayPerp2 pos origin dir n /
          (rayProj pos origin dir n * rayProj pos origin dir n) ≤ coneAngle2
      · rw [if_pos hcone, ih _ hrest]
        simp [hdec]
      · rw [if_neg hcone, ih _ hrest]
        simp [hdec]
    · rw [if_neg hg]
      exact ih st hrest

/-- C10: the cone test of ray-mode selection divides by `x²` under the
guard `x ≥ 0` only; when no node projects to exactly `x = 0` (e.g. no
node coincides with the ray origin), the division-by-zero branch is never
taken, and a node with zero forward projection is never the selection
result. -/
theorem selectNodeRay_division_safety (pos : ℕ → Vec3) (origin dir : Vec3)
    (coneAngle : ℚ) (nodes : List ℕ)
    (h : ∀ n ∈ nodes, rayProj pos origin dir n ≠ 0) :
    selectNodeRayDividesByZero pos origin dir coneAngle nodes = false
    ∧ ∀ n ∈ nodes, rayProj pos origin dir n = 0 →
        selectNodeRay pos origin dir coneAngle nodes ≠ (n : ℤ) := by
  constructor
  · rw [selectNodeRayDividesByZero,
      selectRayLoop_divByZero pos origin dir (coneAngle * coneAngle) nodes _ h]
  · intro n hn h0 _
    exact h n hn h0

/-- Witness for C10: in the spec's ray-picking configuration both nodes
project to `x = 5 ≠ 0` and the instrumented loop records no division by
zero. -/
theorem selectNodeRay_division_safety_witness :
    selectNodeRayDividesByZero (fun n => if n = 0 then ⟨5, 0, 0⟩ else ⟨5, 1, 0⟩)
      ⟨0, 0, 0⟩ ⟨1, 0, 0⟩ (5/1000) [1, 0] = false :=
  (selectNodeRay_division_safety (fun n => if n = 0 then ⟨5, 0, 0⟩ else ⟨5, 1, 0⟩)
    ⟨0, 0, 0⟩ ⟨1, 0, 0⟩ (5/1000) [1, 0]
    (by with_unfolding_all decide)).1

/-! ### Termination of the overlay traversals (claim C6) -/

/-- Auxiliary: if the shortest-path loop has not terminated after `fuel`
iterations, then no prefix of the predecessor orbit hit the stop
conditions: every iterate differs from `previousNode` and is not a
self-loop. -/
theorem shortestPathTrace_none_iter (pred : List ℕ) (previous : ℕ) :
    ∀ (fuel i : ℕ), shortestPathTrace pred previous i fuel = none →
      ∀ k ≤ fuel, (predStep pred)^[k] i ≠ previous ∧
        predStep pred ((predStep pred)^[k] i) ≠ (predStep pred)^[k] i := by
  intro fuel
  induction fuel with
  | zero =>
    intro i hnone k hk
    have hk0 : k = 0 := Nat.le_zero.mp hk
    subst hk0
    by_cases h1 : i = previous
    · rw [shortestPathTrace, if_pos h1] at hnone
      exact Option.noConfusion hnone
    · by_cases h2 : predStep pred i = i
      · rw [shortestPathTrace, if_neg h1, if_pos h2] at hnone
        exact Option.noConfusion hnone
      · simpa using ⟨h1, h2⟩
  | succ fuel ih =>
    intro i hnone k hk
    by_cases h1 : i = previous
    · rw [shortestPathTrace, if_pos h1] at hnone
      exact Option.noConfusion hnone
    · by_cases h2 : predStep pred i = i
      · rw [shortestPathTrace, if_neg h1, if_pos h2] at hnone
        exact Option.noConfusion hnone
      · rw [shortestPathTrace, if_neg h1, if_neg h2] at hnone
        have hrec : shortestPathTrace pred previous (predStep pred i) fuel = none := by
          rcases hopt : shortestPathTrace pred previous (predStep pred i) fuel with _ | v
          · rfl
          · rw [hopt] at hnone
            exact Option.noConfusion hnone
        cases k with
        | zero => simpa using ⟨h1, h2⟩
        | succ kk =>
          have hkk : kk ≤ fuel := Nat.succ_le_succ_iff.mp hk
          have := ih (predStep pred i) hrec kk hkk
          rw [Function.iterate_succ_apply]
          exact this

/-- Auxiliary: when every predecessor entry indexes into the array, the
predecessor orbit stays in range. -/
theorem predStep_iterate_lt (pred : List ℕ)
    (hrange : ∀ j < pred.length, predStep pred j < pred.length)
    {i : ℕ} (hi : i < pred.length) :
    ∀ k, (predStep pred)^[k] i < pred.length := by
  intro k
  induction k with
  | zero => simpa using hi
  | succ k ih =>
    rw [Function.iterate_succ_apply']
    exact hrange _ ih

/-- C6 (counterexample): on the predecessor array `[1, 0, 2]` (3 nodes,
all entries in range, node 2 a self-loop sentinel) with selected node 0
and previous node 2, the shortest-path loop alternates between nodes 0
and 1 and does NOT terminate within (node count) = 3 steps — the
self-loop guard alone does not bound the traversal. -/
theorem shortestPath_cycle_counterexample :
    shortestPathTrace [1, 0, 2] 2 0 ([1, 0, 2] : List ℕ).length = none := by
  with_unfolding_all rfl

/-- C6 (amended): `drawSpanningTree` always terminates in exactly
(node count) steps, and `drawShortestPath` terminates in at most
(node count) steps provided the predecessor array is a proper
predecessor structure: entries index into the array, the selected node is
in range, and the only cycles of the predecessor map are the self-loop
sentinels. -/
theorem path_traversals_terminate (pred : List ℕ) (selected previous : ℕ)
    (hsel : selected < pred.length)
    (hrange : ∀ j < pred.length, predStep pred j < pred.length)
    (hcyc : ∀ j < pred.length, ∀ m ≤ pred.length, 0 < m →
        (predStep pred)^[m] j = j → predStep pred j = j) :
    (shortestPathTrace pred previous selected pred.length).isSome = true
    ∧ (drawSpanningTree pred).length = pred.length := by
  constructor
  · by_contra hns
    have hnone : shortestPathTrace pred previous selected pred.length = none := by
      rcases h : shortestPathTrace pred previous selected pred.length with _ | v
      · rfl
      · rw [h] at hns
        simp at hns
    have hiter := shortestPathTrace_none_iter pred previous pred.length selected hnone
    have hmaps : ∀ k ∈ Finset.range (pred.length + 1),
        (predStep pred)^[k] selected ∈ Finset.range pred.length := by
      intro k _
      exact Finset.mem_range.mpr (predStep_iterate_lt pred hrange hsel k)
    have hcard : (Finset.range pred.length).card
        < (Finset.range (pred.length + 1)).card := by simp
    obtain ⟨a, ha, b, hb, hab, heq⟩ :=
      Finset.exists_ne_map_eq_of_card_lt_of_maps_to hcard hmaps
    have key : ∀ a b : ℕ, a < b → b ≤ pred.length →
        (predStep pred)^[a] selected = (predStep pred)^[b] selected → False := by
      intro a b hlt hbn he
      have hm : (predStep pred)^[b - a] ((predStep pred)^[a] selected)
          = (predStep pred)^[a] selected := by
        rw [← Function.iterate_add_apply]
        rw [Nat.sub_add_cancel (le_of_lt hlt)]
        exact he.symm
      have hja := predStep_iterate_lt pred hrange hsel a
      have hfix : predStep pred ((predStep pred)^[a] selected)
          = (predStep pred)^[a] selected :=
        hcyc _ hja (b - a) (le_trans (Nat.sub_le b a) hbn)
          (Nat.sub_pos_of_lt hlt) hm
      exact (hiter a (le_trans (le_of_lt hlt) hbn)).2 hfix
    rcases lt_or_gt_of_ne hab with hlt | hlt
    · exact key a b hlt (Nat.lt_succ_iff.mp (Finset.mem_range.mp hb)) heq
    · exact key b a hlt (Nat.lt_succ_iff.mp (Finset.mem_range.mp ha)) heq.symm
  · simp [drawSpanningTree]

/-- Witness for C6: the proper predecessor array `[0, 0, 1]` (node 0 a
self-loop root) with selected node 2: the traversal stops within 3
steps and the spanning-tree pass draws 3 edges. -/
theorem path_traversals_terminate_witness :
    (shortestPathTrace [0, 0, 1] 9 2 ([0, 0, 1] : List ℕ).length).isSome = true
    ∧ (drawSpanningTree [0, 0, 1]).length = ([0, 0, 1] : List ℕ).length :=
  path_traversals_terminate [0, 0, 1] 2 9 (by decide) (by decide) (by decide)

end Mycelia
